import Mathlib

/-!
Verification of the Pallet Sequence and Lifecycle Engine of `app.py`.

Strings are modeled as lists of characters; the text handled by the program
is ASCII (identifiers, location and status words, formatted dates), so the
character classes of the regular expressions are modeled as ASCII classes.
-/

/-- The characters matched by the regex class `[A-Za-z]`. -/
def isAsciiAlpha (c : Char) : Bool :=
  decide (65 ≤ c.toNat ∧ c.toNat ≤ 90) || decide (97 ≤ c.toNat ∧ c.toNat ≤ 122)

/-- The characters matched by the regex class `\d` (ASCII range; Python also
admits non-ASCII Unicode digits, which are outside the modeled text). -/
def isAsciiDigit (c : Char) : Bool :=
  decide (48 ≤ c.toNat ∧ c.toNat ≤ 57)

/-- ASCII whitespace, as stripped by `str.strip()` and by `int()`. -/
def isPyWs (c : Char) : Bool :=
  decide (c = ' ' ∨ c = '\t' ∨ c = '\n' ∨ c = '\x0d' ∨ c = '\x0b' ∨ c = '\x0c')

abbrev Str := List Char

/-- `str.strip()`: remove leading and trailing whitespace. -/
def pyStripWs (s : Str) : Str :=
  ((s.dropWhile isPyWs).reverse.dropWhile isPyWs).reverse

/-- Numeric value of a decimal digit character. -/
def dv (c : Char) : Nat := c.toNat - 48

/-- Value of a string of decimal digits (most significant first). -/
def parseNatDigits (s : Str) : Nat :=
  s.foldl (fun a c => 10 * a + dv c) 0

/-- Decimal digits of `n`, most significant first (fueled recursion). -/
def natToStrAux : Nat → Nat → Str
  | 0, _ => []
  | _ + 1, 0 => []
  | fuel + 1, n + 1 => natToStrAux fuel ((n + 1) / 10) ++ [Nat.digitChar ((n + 1) % 10)]

/-- Python `str(n)` for a natural number. -/
def natToString (n : Nat) : Str :=
  if n = 0 then ['0'] else natToStrAux n n

/-- Python `str.zfill(w)`: left-pad with zeros to width `w`, never truncating. -/
def zfillStr (s : Str) (w : Nat) : Str :=
  List.replicate (w - s.length) '0' ++ s

/-- `s` consists of one or more ASCII letters followed by one or more ASCII
digits (the intended reading of the pattern `[A-Za-z]+\d+`). -/
def alphaThenDigits (s : Str) : Bool :=
  decide (s.takeWhile isAsciiAlpha ≠ []) &&
  decide (s.dropWhile isAsciiAlpha ≠ []) &&
  (s.dropWhile isAsciiAlpha).all isAsciiDigit

/-- `validate_pallet_number` (app.py line 60): Python
`re.match(r'^[A-Za-z]+\d+$', s)`.  In Python, `$` matches at the end of the
string or just before a single newline at the end of the string, so a value
of the shape letters-digits followed by one trailing newline is accepted. -/
def validate_pallet_number (s : Str) : Bool :=
  alphaThenDigits s ||
  (decide (s.getLast? = some '\n') && alphaThenDigits s.dropLast)

/-- Python `re.sub(r'\d+$', '', s)`: delete the digit run ending at the end
of the string (or just before a single trailing newline, per `$`). -/
def pySubTrailingDigits (s : Str) : Str :=
  match s.reverse with
  | '\n' :: t => (t.dropWhile isAsciiDigit).reverse ++ ['\n']
  | _ => (s.reverse.dropWhile isAsciiDigit).reverse

/-- Python `int(s)` on the strings reachable here: strip whitespace, then a
non-empty run of decimal digits (sign and underscore grouping are omitted;
the argument is always the digit part of a validated identifier). -/
def pyInt (s : Str) : Option Nat :=
  let t := pyStripWs s
  if decide (t ≠ []) && t.all isAsciiDigit then some (parseNatDigits t) else none

/-- The two `ValueError` messages raised by `generate_sequence`. -/
inductive SeqError where
  | invalidFormat
  | invalidNumber
deriving DecidableEq

/-- `generate_sequence` (app.py lines 64-78): validate the starting
identifier, split it into an upper-cased letter part and a digit part, and
produce `num` zero-padded successive identifiers. -/
def generate_sequence (start : Str) (num : Nat) : Except SeqError (List Str) :=
  if validate_pallet_number start then
    let pfx := (pySubTrailingDigits start).map Char.toUpper
    let numberStr := start.dropWhile isAsciiAlpha
    match pyInt numberStr with
    | some number =>
        .ok ((List.range num).map
          (fun i => pfx ++ zfillStr (natToString (number + i)) numberStr.length))
    | none => .error .invalidNumber
  else .error .invalidFormat

deriving instance DecidableEq for Except

/-- One pallet record: a row of the in-memory table with columns
`Pallet_No, Location, Status, Date`. -/
structure Row where
  palletNo : Str
  location : Str
  status : Str
  date : Str
deriving DecidableEq

/-- A default row, used only as the default of `List.getD`. -/
def dRow : Row := ⟨[], [], [], []⟩

def requiredCols : List Str :=
  ["Pallet_No".data, "Location".data, "Status".data, "Date".data]

/-- The persisted CSV file: a header of column names and the data rows
(each row one field per header column).  Fields are stored unquoted; the
modeled stores keep fields free of separators, so no quoting arises. -/
structure CsvFile where
  header : List Str
  rows : List (List Str)
deriving DecidableEq

/-- A wall-clock timestamp as parsed by `pd.to_datetime` with the format
`%Y-%m-%d %H:%M:%S`. -/
structure DateTime where
  year : Nat
  month : Nat
  day : Nat
  hour : Nat
  minute : Nat
  second : Nat
deriving DecidableEq

def isLeapYear (y : Nat) : Bool :=
  (decide (y % 4 = 0) && decide (y % 100 ≠ 0)) || decide (y % 400 = 0)

def daysInMonth (y m : Nat) : Nat :=
  if m = 2 then (if isLeapYear y then 29 else 28)
  else if m = 4 ∨ m = 6 ∨ m = 9 ∨ m = 11 then 30
  else 31

/-- Calendar validity of a parsed timestamp.  The year range is the range
of years fully representable by the nanosecond `pd.Timestamp` (1677-2262 at
the margins); out-of-range timestamps are coerced to `NaT` exactly like
unparseable ones. -/
def DateTime.validB (d : DateTime) : Bool :=
  decide (1678 ≤ d.year) && decide (d.year ≤ 2261) &&
  decide (1 ≤ d.month) && decide (d.month ≤ 12) &&
  decide (1 ≤ d.day) && decide (d.day ≤ daysInMonth d.year d.month) &&
  decide (d.hour ≤ 23) && decide (d.minute ≤ 59) && decide (d.second ≤ 59)

def val2 (a b : Char) : Nat := 10 * dv a + dv b

def val4 (a b c d : Char) : Nat := 1000 * dv a + 100 * dv b + 10 * dv c + dv d

/-- Parsing one `Date` field with `pd.to_datetime(..., format=DATE_FORMAT,
errors='coerce')`: the fixed-width shape `YYYY-MM-DD HH:MM:SS`, checked for
calendar validity; anything else becomes `NaT` (here `none`). -/
def parseDateTime (s : Str) : Option DateTime :=
  match s with
  | [y1, y2, y3, y4, c1, m1, m2, c2, d1, d2, c3, h1, h2, c4, n1, n2, c5, s1, s2] =>
    if c1 = '-' ∧ c2 = '-' ∧ c3 = ' ' ∧ c4 = ':' ∧ c5 = ':' ∧
       ([y1, y2, y3, y4, m1, m2, d1, d2, h1, h2, n1, n2, s1, s2].all isAsciiDigit) = true then
      let dt : DateTime :=
        ⟨val4 y1 y2 y3 y4, val2 m1 m2, val2 d1 d2, val2 h1 h2, val2 n1 n2, val2 s1 s2⟩
      if dt.validB then some dt else none
    else none
  | _ => none

def pad2 (n : Nat) : Str := [Nat.digitChar (n / 10 % 10), Nat.digitChar (n % 10)]

def pad4 (n : Nat) : Str :=
  [Nat.digitChar (n / 1000 % 10), Nat.digitChar (n / 100 % 10),
   Nat.digitChar (n / 10 % 10), Nat.digitChar (n % 10)]

/-- The canonical rendering `YYYY-MM-DD HH:MM:SS` of a timestamp: both the
`str` form of a whole-second `pd.Timestamp` (what `to_csv` writes for the
parsed `Date` column) and the output of `strftime(DATE_FORMAT)`. -/
def formatDateTime (d : DateTime) : Str :=
  pad4 d.year ++ '-' :: pad2 d.month ++ '-' :: pad2 d.day ++
  ' ' :: pad2 d.hour ++ ':' :: pad2 d.minute ++ ':' :: pad2 d.second

/-- The `Pallet_No` cleaning of `load_data`:
`astype(str).str.strip().str.upper()`.  An empty CSV field is `NaN`, whose
`astype(str)` form is the string `nan`, hence `NAN` after upper-casing. -/
def normPalletNo (field : Str) : Str :=
  if field.isEmpty then "NAN".data else (pyStripWs field).map Char.toUpper

/-- Per-row processing of `load_data` (app.py lines 92-95): drop rows whose
fields are all missing (`dropna(how='all')`), clean `Pallet_No`, parse the
`Date` field and drop the row if it does not parse; a parsed timestamp is
kept as its canonical rendering. -/
def loadRow (header : List Str) (row : List Str) : Option Row :=
  if row.all List.isEmpty then none
  else
    let getCol := fun (c : Str) => row.getD (header.indexOf c) []
    match parseDateTime (getCol ("Date".data)) with
    | some d =>
        some ⟨normPalletNo (getCol ("Pallet_No".data)),
              getCol ("Location".data), getCol ("Status".data), formatDateTime d⟩
    | none => none

/-- `load_data` (app.py lines 80-103) on a present file: if a required
column is missing the raised error is caught and an empty table results;
otherwise the rows are cleaned one by one.  (The file-absent branch and the
caught I/O errors also yield the empty table.) -/
def load_data (f : CsvFile) : List Row :=
  if requiredCols.all (fun c => decide (c ∈ f.header)) then
    f.rows.filterMap (loadRow f.header)
  else []

/-- `save_data` (app.py lines 105-128): the in-memory table always carries
the four required columns, so validation passes, and the write-temp-then-
replace discipline is modeled by returning the file content that atomically
replaces the canonical file. -/
def save_data (store : List Row) : CsvFile :=
  ⟨requiredCols, store.map (fun r => [r.palletNo, r.location, r.status, r.date])⟩

def updatedMsg (n : Nat) : Str := "Updated ".data ++ natToString n ++ " pallets".data

def noMatchMsg : Str := "No matching pallets found".data

/-- The Add Pallets handler body (app.py lines 287-301): partition the
generated identifiers against the identifiers already present, then append
one new record per fresh identifier. -/
def addHandler (store : List Row) (start : Str) (count : Nat) (loc stat now : Str) :
    Except SeqError (List Row × List Str × List Str) :=
  match generate_sequence start count with
  | .error e => .error e
  | .ok newPallets =>
      let added := newPallets.filter (fun p => decide (p ∉ store.map Row.palletNo))
      let skipped := newPallets.filter (fun p => decide (p ∈ store.map Row.palletNo))
      let newRows := added.map (fun p => Row.mk p loc stat now)
      .ok (store ++ newRows, added, skipped)

/-- The loop of the Update Pallets handler (app.py lines 327-332): for each
candidate identifier present in the table, overwrite `Location`, `Status`
and `Date` of every row carrying it, counting the hits. -/
def updatePallets (store : List Row) (ids : List Str) (newLoc newStat now : Str) :
    List Row × Nat :=
  ids.foldl
    (fun acc pid =>
      if pid ∈ acc.1.map Row.palletNo then
        (acc.1.map (fun r =>
          if r.palletNo = pid then { r with location := newLoc, status := newStat, date := now }
          else r), acc.2 + 1)
      else acc)
    (store, 0)

/-- The Update Pallets handler (app.py lines 322-341), with the message it
surfaces: a success count, or a warning when nothing matched. -/
def updateHandler (store : List Row) (start : Str) (count : Nat) (newLoc newStat now : Str) :
    Except SeqError (List Row × Nat × Str) :=
  match generate_sequence start count with
  | .error e => .error e
  | .ok ids =>
      let res := updatePallets store ids newLoc newStat now
      .ok (res.1, res.2, if res.2 > 0 then updatedMsg res.2 else noMatchMsg)

/-- The loop of the Discard Pallets handler (app.py lines 353-357): for each
candidate identifier present, set `Status` to `Discarded` and refresh
`Date`, leaving `Location` untouched. -/
def discardPallets (store : List Row) (ids : List Str) (now : Str) : List Row × Nat :=
  ids.foldl
    (fun acc pid =>
      if pid ∈ acc.1.map Row.palletNo then
        (acc.1.map (fun r =>
          if r.palletNo = pid then { r with status := "Discarded".data, date := now }
          else r), acc.2 + 1)
      else acc)
    (store, 0)

def discardedMsg (n : Nat) : Str := "Discarded ".data ++ natToString n ++ " pallets".data

/-- The Discard Pallets handler (app.py lines 348-367). -/
def discardHandler (store : List Row) (start : Str) (count : Nat) (now : Str) :
    Except SeqError (List Row × Nat × Str) :=
  match generate_sequence start count with
  | .error e => .error e
  | .ok ids =>
      let res := discardPallets store ids now
      .ok (res.1, res.2, if res.2 > 0 then discardedMsg res.2 else noMatchMsg)

/-- The store visible after clicking Add: on a `ValueError` the handler only
shows the message, the table is untouched. -/
def addClick (store : List Row) (start : Str) (count : Nat) (loc stat now : Str) : List Row :=
  match addHandler store start count loc stat now with
  | .error _ => store
  | .ok res => res.1

/-- The store visible after clicking Update; errors leave it untouched. -/
def updateClick (store : List Row) (start : Str) (count : Nat) (newLoc newStat now : Str) :
    List Row :=
  match updateHandler store start count newLoc newStat now with
  | .error _ => store
  | .ok res => res.1

/-- The store visible after clicking Discard; errors leave it untouched. -/
def discardClick (store : List Row) (start : Str) (count : Nat) (now : Str) : List Row :=
  match discardHandler store start count now with
  | .error _ => store
  | .ok res => res.1

/-- Case-insensitive match of one pattern character against one text
character; `.` is the only regex metacharacter interpreted by this model
(see `reSearchCI`). -/
def patCharMatch (p c : Char) : Bool :=
  decide (p = '.') || decide (p.toLower = c.toLower)

/-- Does the pattern match a prefix of the text (patterns here are built
from literal characters and the wildcard `.`)? -/
def matchAt : Str → Str → Bool
  | [], _ => true
  | _ :: _, [] => false
  | p :: ps, c :: cs => patCharMatch p c && matchAt ps cs

/-- `Series.str.contains(pat, case=False)`: by default pandas treats `pat`
as a regular expression and tests `re.search` with `IGNORECASE`.  The model
covers the regex fragment of literal characters and the wildcard `.`; the
other metacharacters are flagged by `isRegexMeta` and left out of scope. -/
def reSearchCI (pat : Str) : Str → Bool
  | [] => matchAt pat []
  | c :: t => matchAt pat (c :: t) || reSearchCI pat t

/-- The characters that are special in a Python regular expression. -/
def isRegexMeta (c : Char) : Bool :=
  decide (c ∈ ".^$*+?\x7b\x7d[]()|\\".data)

/-- Case-insensitive literal prefix match (what the specification means by
substring containment). -/
def litMatchAt : Str → Str → Bool
  | [], _ => true
  | _ :: _, [] => false
  | p :: ps, c :: cs => decide (p.toLower = c.toLower) && litMatchAt ps cs

/-- Stated from the specification words: `pat` occurs in the text as a
literal substring, compared case-insensitively. -/
def substrCI (pat : Str) : Str → Bool
  | [] => litMatchAt pat []
  | c :: t => litMatchAt pat (c :: t) || substrCI pat t

/-- The Search Pallets handler (app.py lines 373-378): keep the rows whose
`Pallet_No` or `Location` matches the term. -/
def searchPallets (store : List Row) (term : Str) : List Row :=
  store.filter (fun r => reSearchCI term r.palletNo || reSearchCI term r.location)

/-- One backup archive document, as read back by `restore_backup`: the
`data` list of records, presented as its column set and rows.  (The
`metadata` object is written but never consulted on restore.) -/
structure Backup where
  header : List Str
  rows : List (List Str)
deriving DecidableEq

/-- `restore_backup` (app.py lines 158-183) on a chosen readable entry:
only the presence of the required columns is checked; the rows are returned
verbatim, with no date parsing, row dropping or identifier cleaning.  A
missing column raises, the error is caught and `None` is returned. -/
def restore_backup (b : Backup) : Option (List Row) :=
  if requiredCols.all (fun c => decide (c ∈ b.header)) then
    some (b.rows.map (fun row =>
      ⟨row.getD (b.header.indexOf ("Pallet_No".data)) [],
       row.getD (b.header.indexOf ("Location".data)) [],
       row.getD (b.header.indexOf ("Status".data)) [],
       row.getD (b.header.indexOf ("Date".data)) []⟩))
  else none

/-- The restore buttons (app.py lines 257-262 and 482-487): the live store
is replaced only when `restore_backup` returned a table. -/
def restoreApply (store : List Row) (b : Backup) : List Row :=
  match restore_backup b with
  | some df => df
  | none => store

/-- Lexicographic comparison of file names by code point, as Python
`sorted` compares strings. -/
def strLt : Str → Str → Bool
  | [], [] => false
  | [], _ :: _ => true
  | _ :: _, [] => false
  | a :: ta, b :: tb => decide (a.toNat < b.toNat) || (decide (a = b) && strLt ta tb)

def strLe (a b : Str) : Bool := ! strLt b a

def sortAsc (l : List Str) : List Str := l.insertionSort (fun a b => strLe a b = true)

/-- `backups[:-5]` are removed, so the last five names of the ascending
sort remain. -/
def keepLast5 (l : List Str) : List Str := l.drop (l.length - 5)

/-- One `create_backup` call (app.py lines 130-156) acting on the set of
archive file names: write the entry named by the timestamp (an existing
name would be overwritten), then prune all but the five newest, oldest
deleted first. -/
def create_backup_fs (archive : List Str) (t : Str) : List Str :=
  keepLast5 (sortAsc (if t ∈ archive then archive else archive ++ [t]))

/-- The Backup Management listing (app.py line 471):
`sorted(glob(...), reverse=True)`, which on distinct names is the reverse
of the ascending sort. -/
def listSnapshots (archive : List Str) : List Str := (sortAsc archive).reverse

/-- The closed location vocabulary offered by the forms. -/
def locationsList : List Str :=
  ["SGT".data, "DKP".data, "OFC".data, "End Customer".data]

/-- The closed status vocabulary offered by the forms. -/
def statusesList : List Str :=
  ["Received At".data, "In Transit To".data, "Delivered".data, "Discarded".data]

/-- The `Date` field parses and is the canonical rendering of its value
(zero-padded `YYYY-MM-DD HH:MM:SS`). -/
def dateCanonB (s : Str) : Bool :=
  match parseDateTime s with
  | some d => decide (formatDateTime d = s)
  | none => false

/-- A well-formed record: the identifier has the letters-digits shape and
is already stripped and upper-cased, location and status come from the
vocabularies, and the date is a canonical full timestamp. -/
abbrev WFRow (r : Row) : Prop :=
  alphaThenDigits r.palletNo = true ∧ pyStripWs r.palletNo = r.palletNo ∧
  r.palletNo.map Char.toUpper = r.palletNo ∧ r.location ∈ locationsList ∧
  r.status ∈ statusesList ∧ dateCanonB r.date = true

/-- A well-formed store: every record is well-formed. -/
abbrev WFStore (store : List Row) : Prop := ∀ r ∈ store, WFRow r

/-- Case-sensitive literal prefix match. -/
def litPrefixCS : Str → Str → Bool
  | [], _ => true
  | _ :: _, [] => false
  | p :: ps, c :: cs => decide (p = c) && litPrefixCS ps cs

/-- Case-sensitive literal substring containment, used to inspect the
messages surfaced by the handlers. -/
def strContainsCS (pat : Str) : Str → Bool
  | [] => litPrefixCS pat []
  | c :: t => litPrefixCS pat (c :: t) || strContainsCS pat t

/-- A sample well-formed record used by the concrete instantiations. -/
def exRow : Row :=
  ⟨"P001".data, "SGT".data, "Received At".data, "2024-01-02 03:04:05".data⟩

/-- A file whose single row has a date-only `Date` field, the shape the
specification calls valid. -/
def f0 : CsvFile :=
  ⟨requiredCols, [["P001".data, "SGT".data, "Received At".data, "2024-01-02".data]]⟩

/-- A backup whose single record has a lower-case identifier and an
unparseable date. -/
def bEx : Backup :=
  ⟨requiredCols, [["p001".data, "SGT".data, "Received At".data, "not-a-date".data]]⟩

/-- A backup missing the `Date` column. -/
def bBad : Backup :=
  ⟨["Pallet_No".data, "Location".data, "Status".data], [["P001".data, "SGT".data, "Delivered".data]]⟩

/-- Six strictly increasing backup file timestamps. -/
def ts6 : List Str :=
  ["20240101_000001".data, "20240101_000002".data, "20240101_000003".data,
   "20240101_000004".data, "20240101_000005".data, "20240101_000006".data]

/-! ### Character and digit-string lemmas -/

theorem digit_not_alpha {c : Char} (h : isAsciiDigit c = true) : isAsciiAlpha c = false := by
  simp only [isAsciiDigit, decide_eq_true_eq] at h
  simp only [isAsciiAlpha, Bool.or_eq_false_iff, decide_eq_false_iff_not]
  omega

theorem alpha_not_digit {c : Char} (h : isAsciiAlpha c = true) : isAsciiDigit c = false := by
  simp only [isAsciiAlpha, Bool.or_eq_true, decide_eq_true_eq] at h
  simp only [isAsciiDigit, decide_eq_false_iff_not]
  omega

theorem digit_not_ws {c : Char} (h : isAsciiDigit c = true) : isPyWs c = false := by
  cases hw : isPyWs c with
  | false => rfl
  | true =>
    exfalso
    simp only [isPyWs, decide_eq_true_eq] at hw
    rcases hw with rfl | rfl | rfl | rfl | rfl | rfl <;> exact absurd h (by decide)

theorem digit_ne_newline {c : Char} (h : isAsciiDigit c = true) : c ≠ '\n' := by
  rintro rfl
  exact absurd h (by decide)

theorem takeWhile_append_of {p : Char → Bool} :
    ∀ (A B : Str), (∀ c ∈ A, p c = true) → (∀ d t, B = d :: t → p d = false) →
      (A ++ B).takeWhile p = A := by
  intro A
  induction A with
  | nil =>
    intro B _ hB
    cases B with
    | nil => rfl
    | cons d t => simp [List.takeWhile_cons, hB d t rfl]
  | cons a A ih =>
    intro B hA hB
    have ha : p a = true := hA a (List.mem_cons_self a A)
    simp [List.takeWhile_cons, ha, ih B (fun c hc => hA c (List.mem_cons_of_mem a hc)) hB]

theorem dropWhile_append_of {p : Char → Bool} :
    ∀ (A B : Str), (∀ c ∈ A, p c = true) → (∀ d t, B = d :: t → p d = false) →
      (A ++ B).dropWhile p = B := by
  intro A
  induction A with
  | nil =>
    intro B _ hB
    cases B with
    | nil => rfl
    | cons d t => simp [List.dropWhile_cons, hB d t rfl]
  | cons a A ih =>
    intro B hA hB
    have ha : p a = true := hA a (List.mem_cons_self a A)
    simp [List.dropWhile_cons, ha, ih B (fun c hc => hA c (List.mem_cons_of_mem a hc)) hB]

theorem dropWhile_eq_self_of {p : Char → Bool} {l : Str}
    (h : ∀ d t, l = d :: t → p d = false) : l.dropWhile p = l := by
  have := dropWhile_append_of [] l (by intro c hc; cases hc) h
  simpa using this

theorem filterMap_eq_self_of {α : Type} {f : α → Option α} :
    ∀ (l : List α), (∀ x ∈ l, f x = some x) → l.filterMap f = l := by
  intro l
  induction l with
  | nil => intro _; rfl
  | cons a l ih =>
    intro h
    have ha : f a = some a := h a (List.mem_cons_self a l)
    simp [List.filterMap_cons, ha, ih (fun x hx => h x (List.mem_cons_of_mem a hx))]

theorem foldl_zeros (k : Nat) :
    List.foldl (fun a c => 10 * a + dv c) 0 (List.replicate k '0') = 0 := by
  induction k with
  | zero => rfl
  | succ k ih => simpa [List.replicate_succ, dv] using ih

theorem parseNatDigits_replicate_zero (k : Nat) (l : Str) :
    parseNatDigits (List.replicate k '0' ++ l) = parseNatDigits l := by
  unfold parseNatDigits
  rw [List.foldl_append, foldl_zeros]

theorem dv_digitChar (n : Nat) : dv (Nat.digitChar (n % 10)) = n % 10 := by
  have h : n % 10 < 10 := Nat.mod_lt _ (by omega)
  revert h
  generalize n % 10 = k
  intro h
  interval_cases k <;> rfl

theorem digitChar_isDigit (n : Nat) : isAsciiDigit (Nat.digitChar (n % 10)) = true := by
  have h : n % 10 < 10 := Nat.mod_lt _ (by omega)
  revert h
  generalize n % 10 = k
  intro h
  interval_cases k <;> rfl

theorem parseNatDigits_append_singleton (l : Str) (c : Char) :
    parseNatDigits (l ++ [c]) = 10 * parseNatDigits l + dv c := by
  unfold parseNatDigits
  rw [List.foldl_append]
  rfl

theorem parseNat_natToStrAux : ∀ fuel n, n ≤ fuel → parseNatDigits (natToStrAux fuel n) = n := by
  intro fuel
  induction fuel with
  | zero =>
    intro n hn
    interval_cases n
    rfl
  | succ fuel ih =>
    intro n hn
    cases n with
    | zero => rfl
    | succ m =>
      rw [natToStrAux, parseNatDigits_append_singleton, dv_digitChar,
        ih ((m + 1) / 10) (by omega)]
      omega

theorem parseNat_natToString (n : Nat) : parseNatDigits (natToString n) = n := by
  unfold natToString
  by_cases h : n = 0
  · subst h; rfl
  · rw [if_neg h]
    exact parseNat_natToStrAux n n le_rfl

theorem parseNat_zfill (n w : Nat) :
    parseNatDigits (zfillStr (natToString n) w) = n := by
  rw [zfillStr, parseNatDigits_replicate_zero, parseNat_natToString]

/-! ### Decomposition of the sequencer on well-shaped identifiers -/

theorem takeWhile_alpha (pre ds : Str) (ha : ∀ c ∈ pre, isAsciiAlpha c = true)
    (hd : ∀ c ∈ ds, isAsciiDigit c = true) :
    (pre ++ ds).takeWhile isAsciiAlpha = pre :=
  takeWhile_append_of pre ds ha
    (fun d t ht => digit_not_alpha (hd d (ht ▸ List.mem_cons_self d t)))

theorem dropWhile_alpha (pre ds : Str) (ha : ∀ c ∈ pre, isAsciiAlpha c = true)
    (hd : ∀ c ∈ ds, isAsciiDigit c = true) :
    (pre ++ ds).dropWhile isAsciiAlpha = ds :=
  dropWhile_append_of pre ds ha
    (fun d t ht => digit_not_alpha (hd d (ht ▸ List.mem_cons_self d t)))

theorem alphaThenDigits_of (pre ds : Str) (hpre : pre ≠ []) (hds : ds ≠ [])
    (ha : ∀ c ∈ pre, isAsciiAlpha c = true) (hd : ∀ c ∈ ds, isAsciiDigit c = true) :
    alphaThenDigits (pre ++ ds) = true := by
  unfold alphaThenDigits
  rw [takeWhile_alpha pre ds ha hd, dropWhile_alpha pre ds ha hd]
  simp only [hpre, hds, List.all_eq_true, decide_not, Bool.and_eq_true, decide_eq_true_eq,
    not_false_eq_true, Bool.not_false, Bool.true_and, true_and]
  constructor
  · constructor <;> simp [hpre, hds]
  · exact hd

theorem validate_of (pre ds : Str) (hpre : pre ≠ []) (hds : ds ≠ [])
    (ha : ∀ c ∈ pre, isAsciiAlpha c = true) (hd : ∀ c ∈ ds, isAsciiDigit c = true) :
    validate_pallet_number (pre ++ ds) = true := by
  unfold validate_pallet_number
  rw [alphaThenDigits_of pre ds hpre hds ha hd]
  rfl

theorem subTrailingDigits_of (pre ds : Str) (hpre : pre ≠ []) (hds : ds ≠ [])
    (ha : ∀ c ∈ pre, isAsciiAlpha c = true) (hd : ∀ c ∈ ds, isAsciiDigit c = true) :
    pySubTrailingDigits (pre ++ ds) = pre := by
  obtain ⟨e, rest, hrev⟩ : ∃ e rest, ds.reverse = e :: rest := by
    cases h : ds.reverse with
    | nil => exact absurd (List.reverse_eq_nil_iff.mp h) hds
    | cons e rest => exact ⟨e, rest, rfl⟩
  have he : e ∈ ds := by
    have : e ∈ ds.reverse := hrev ▸ List.mem_cons_self e rest
    exact List.mem_reverse.mp this
  have hscr : (pre ++ ds).reverse = (e :: rest) ++ pre.reverse := by
    rw [List.reverse_append, hrev]
  have hdropRev : ((pre ++ ds).reverse).dropWhile isAsciiDigit = pre.reverse := by
    rw [List.reverse_append]
    refine dropWhile_append_of ds.reverse pre.reverse ?_ ?_
    · intro c hc
      exact hd c (List.mem_reverse.mp hc)
    · intro d t ht
      have hdp : d ∈ pre.reverse := by rw [ht]; exact List.mem_cons_self d t
      exact alpha_not_digit (ha d (List.mem_reverse.mp hdp))
  unfold pySubTrailingDigits
  split
  · rename_i t hmatch
    exfalso
    rw [hscr] at hmatch
    have : e = '\n' := (List.cons_eq_cons.mp hmatch).1
    exact digit_ne_newline (hd e he) this
  · rw [hdropRev, List.reverse_reverse]

theorem strip_of_digits (ds : Str) (hd : ∀ c ∈ ds, isAsciiDigit c = true) :
    pyStripWs ds = ds := by
  have h1 : ds.dropWhile isPyWs = ds :=
    dropWhile_eq_self_of (fun d t ht => by
      have : d ∈ ds := by rw [ht]; exact List.mem_cons_self d t
      exact digit_not_ws (hd d this))
  have h2 : ds.reverse.dropWhile isPyWs = ds.reverse :=
    dropWhile_eq_self_of (fun d t ht => by
      have : d ∈ ds.reverse := by rw [ht]; exact List.mem_cons_self d t
      exact digit_not_ws (hd d (List.mem_reverse.mp this)))
  unfold pyStripWs
  rw [h1, h2, List.reverse_reverse]

theorem pyInt_digits (ds : Str) (hds : ds ≠ [])
    (hd : ∀ c ∈ ds, isAsciiDigit c = true) :
    pyInt ds = some (parseNatDigits ds) := by
  unfold pyInt
  rw [strip_of_digits ds hd]
  rw [if_pos]
  simp only [List.all_eq_true, Bool.and_eq_true, decide_eq_true_eq]
  exact ⟨hds, hd⟩

theorem generate_sequence_of (pre ds : Str) (count : Nat) (hpre : pre ≠ []) (hds : ds ≠ [])
    (ha : ∀ c ∈ pre, isAsciiAlpha c = true) (hd : ∀ c ∈ ds, isAsciiDigit c = true) :
    generate_sequence (pre ++ ds) count =
      .ok ((List.range count).map
        (fun i => pre.map Char.toUpper ++
          zfillStr (natToString (parseNatDigits ds + i)) ds.length)) := by
  unfold generate_sequence
  rw [if_pos (validate_of pre ds hpre hds ha hd)]
  simp only [subTrailingDigits_of pre ds hpre hds ha hd, dropWhile_alpha pre ds ha hd,
    pyInt_digits ds hds hd]

theorem gen_nodup {s : Str} {c : Nat} {l : List Str}
    (h : generate_sequence s c = .ok l) : l.Nodup := by
  unfold generate_sequence at h
  split at h
  · cases hint : pyInt (s.dropWhile isAsciiAlpha) with
    | some number =>
      simp only [hint] at h
      injection h with h
      subst h
      refine (List.nodup_range c).map ?_
      intro i j hij
      have hparse := congrArg parseNatDigits (List.append_cancel_left hij)
      rw [parseNat_zfill, parseNat_zfill] at hparse
      omega
    | none =>
      simp only [hint] at h
      exact (Except.noConfusion h)
  · exact absurd h (by simp)

/-! ### Persistence round-trip lemmas -/

theorem alphaThenDigits_ne_nil {s : Str} (h : alphaThenDigits s = true) : s ≠ [] := by
  rintro rfl
  exact absurd h (by decide)

theorem loadRow_save (r : Row) (h : WFRow r) :
    loadRow requiredCols [r.palletNo, r.location, r.status, r.date] = some r := by
  obtain ⟨pn, loc, stat, date⟩ := r
  obtain ⟨h1, h2, h3, _h4, _h5, h6⟩ := h
  simp only at h1 h2 h3 h6
  have hpn : pn ≠ [] := alphaThenDigits_ne_nil h1
  obtain ⟨d, hp, hf⟩ : ∃ d, parseDateTime date = some d ∧ formatDateTime d = date := by
    unfold dateCanonB at h6
    cases hpd : parseDateTime date with
    | none => rw [hpd] at h6; exact absurd h6 (by simp)
    | some d =>
      rw [hpd] at h6
      exact ⟨d, rfl, of_decide_eq_true h6⟩
  unfold loadRow
  rw [if_neg (by simp [hpn])]
  have hidx : requiredCols.indexOf ("Date".data) = 3 := by decide
  simp only [hidx]
  have hgetd : [pn, loc, stat, date].getD 3 [] = date := rfl
  rw [hgetd, hp]
  simp only [Option.some.injEq]
  have hidx0 : requiredCols.indexOf ("Pallet_No".data) = 0 := by decide
  have hidx1 : requiredCols.indexOf ("Location".data) = 1 := by decide
  have hidx2 : requiredCols.indexOf ("Status".data) = 2 := by decide
  simp only [hidx0, hidx1, hidx2]
  have hnorm : normPalletNo ([pn, loc, stat, date].getD 0 []) = pn := by
    have : [pn, loc, stat, date].getD 0 [] = pn := rfl
    rw [this]
    unfold normPalletNo
    rw [if_neg (by simp [hpn]), h2, h3]
  rw [hnorm, hf]
  rfl

theorem load_save (store : List Row) (h : WFStore store) :
    load_data (save_data store) = store := by
  have hhdr : (requiredCols.all fun c => decide (c ∈ requiredCols)) = true := by decide
  unfold load_data save_data
  dsimp only
  rw [if_pos hhdr, List.filterMap_map]
  exact filterMap_eq_self_of store (fun r hr => loadRow_save r (h r hr))

/-! ### Bulk update and discard lemmas -/

/-- The row transformation applied by one matching update. -/
def updRow (newLoc newStat now : Str) (r : Row) : Row :=
  { r with location := newLoc, status := newStat, date := now }

/-- The row transformation applied by one matching discard. -/
def disRow (now : Str) (r : Row) : Row :=
  { r with status := "Discarded".data, date := now }

theorem updatePallets_fst (store : List Row) (ids : List Str) (newLoc newStat now : Str) :
    (updatePallets store ids newLoc newStat now).1 =
      store.map (fun r => if r.palletNo ∈ ids then updRow newLoc newStat now r else r) := by
  suffices hgen : ∀ (ids : List Str) (st : List Row) (n : Nat),
      (List.foldl
        (fun acc pid =>
          if pid ∈ acc.1.map Row.palletNo then
            (acc.1.map (fun r =>
              if r.palletNo = pid then { r with location := newLoc, status := newStat, date := now }
              else r), acc.2 + 1)
          else acc)
        (st, n) ids).1 =
      st.map (fun r =>
        if r.palletNo ∈ ids then { r with location := newLoc, status := newStat, date := now }
        else r) by
    exact hgen ids store 0
  intro ids
  induction ids with
  | nil =>
    intro st n
    simp
  | cons pid ids ih =>
    intro st n
    rw [List.foldl_cons]
    by_cases hmem : pid ∈ st.map Row.palletNo
    · rw [if_pos hmem, ih]
      rw [List.map_map]
      refine List.map_congr_left ?_
      intro r _
      simp only [Function.comp_apply]
      by_cases hr : r.palletNo = pid
      · rw [if_pos hr]
        have hpn : ({ r with location := newLoc, status := newStat, date := now } : Row).palletNo
            = r.palletNo := rfl
        rw [hpn]
        by_cases hi : r.palletNo ∈ ids
        · rw [if_pos hi, if_pos (show r.palletNo ∈ pid :: ids by simp [hi])]
        · rw [if_neg hi, if_pos (show r.palletNo ∈ pid :: ids by simp [hr])]
      · rw [if_neg hr]
        by_cases hi : r.palletNo ∈ ids
        · rw [if_pos hi, if_pos (show r.palletNo ∈ pid :: ids by simp [hi])]
        · rw [if_neg hi, if_neg (show r.palletNo ∉ pid :: ids by simp [hr, hi])]
    · rw [if_neg hmem, ih]
      refine List.map_congr_left ?_
      intro r hrmem
      have hne : r.palletNo ≠ pid := by
        rintro rfl
        exact hmem (List.mem_map.mpr ⟨r, hrmem, rfl⟩)
      by_cases hi : r.palletNo ∈ ids
      · rw [if_pos hi, if_pos (show r.palletNo ∈ pid :: ids by simp [hi])]
      · rw [if_neg hi, if_neg (show r.palletNo ∉ pid :: ids by simp [hne, hi])]

theorem discardPallets_fst (store : List Row) (ids : List Str) (now : Str) :
    (discardPallets store ids now).1 =
      store.map (fun r => if r.palletNo ∈ ids then disRow now r else r) := by
  suffices hgen : ∀ (ids : List Str) (st : List Row) (n : Nat),
      (List.foldl
        (fun acc pid =>
          if pid ∈ acc.1.map Row.palletNo then
            (acc.1.map (fun r =>
              if r.palletNo = pid then { r with status := "Discarded".data, date := now }
              else r), acc.2 + 1)
          else acc)
        (st, n) ids).1 =
      st.map (fun r =>
        if r.palletNo ∈ ids then { r with status := "Discarded".data, date := now }
        else r) by
    exact hgen ids store 0
  intro ids
  induction ids with
  | nil =>
    intro st n
    simp
  | cons pid ids ih =>
    intro st n
    rw [List.foldl_cons]
    by_cases hmem : pid ∈ st.map Row.palletNo
    · rw [if_pos hmem, ih]
      rw [List.map_map]
      refine List.map_congr_left ?_
      intro r _
      simp only [Function.comp_apply]
      by_cases hr : r.palletNo = pid
      · rw [if_pos hr]
        have hpn : ({ r with status := "Discarded".data, date := now } : Row).palletNo
            = r.palletNo := rfl
        rw [hpn]
        by_cases hi : r.palletNo ∈ ids
        · rw [if_pos hi, if_pos (show r.palletNo ∈ pid :: ids by simp [hi])]
        · rw [if_neg hi, if_pos (show r.palletNo ∈ pid :: ids by simp [hr])]
      · rw [if_neg hr]
        by_cases hi : r.palletNo ∈ ids
        · rw [if_pos hi, if_pos (show r.palletNo ∈ pid :: ids by simp [hi])]
        · rw [if_neg hi, if_neg (show r.palletNo ∉ pid :: ids by simp [hr, hi])]
    · rw [if_neg hmem, ih]
      refine List.map_congr_left ?_
      intro r hrmem
      have hne : r.palletNo ≠ pid := by
        rintro rfl
        exact hmem (List.mem_map.mpr ⟨r, hrmem, rfl⟩)
      by_cases hi : r.palletNo ∈ ids
      · rw [if_pos hi, if_pos (show r.palletNo ∈ pid :: ids by simp [hi])]
      · rw [if_neg hi, if_neg (show r.palletNo ∉ pid :: ids by simp [hne, hi])]

theorem updatePallets_map_pn (store : List Row) (ids : List Str) (newLoc newStat now : Str) :
    (updatePallets store ids newLoc newStat now).1.map Row.palletNo =
      store.map Row.palletNo := by
  rw [updatePallets_fst, List.map_map]
  refine List.map_congr_left ?_
  intro r _
  simp only [Function.comp_apply]
  by_cases hi : r.palletNo ∈ ids
  · rw [if_pos hi]; rfl
  · rw [if_neg hi]

theorem discardPallets_map_pn (store : List Row) (ids : List Str) (now : Str) :
    (discardPallets store ids now).1.map Row.palletNo = store.map Row.palletNo := by
  rw [discardPallets_fst, List.map_map]
  refine List.map_congr_left ?_
  intro r _
  simp only [Function.comp_apply]
  by_cases hi : r.palletNo ∈ ids
  · rw [if_pos hi]; rfl
  · rw [if_neg hi]

theorem updatePallets_absent (store : List Row) (ids : List Str) (newLoc newStat now : Str)
    (h : ∀ pid ∈ ids, pid ∉ store.map Row.palletNo) :
    updatePallets store ids newLoc newStat now = (store, 0) := by
  unfold updatePallets
  induction ids with
  | nil => rfl
  | cons pid ids ih =>
    rw [List.foldl_cons, if_neg (h pid (List.mem_cons_self pid ids))]
    exact ih (fun q hq => h q (List.mem_cons_of_mem pid hq))

theorem discardPallets_absent (store : List Row) (ids : List Str) (now : Str)
    (h : ∀ pid ∈ ids, pid ∉ store.map Row.palletNo) :
    discardPallets store ids now = (store, 0) := by
  unfold discardPallets
  induction ids with
  | nil => rfl
  | cons pid ids ih =>
    rw [List.foldl_cons, if_neg (h pid (List.mem_cons_self pid ids))]
    exact ih (fun q hq => h q (List.mem_cons_of_mem pid hq))

/-! ### Backup rotation lemmas -/

theorem strLt_irrefl : ∀ s : Str, strLt s s = false := by
  intro s
  induction s with
  | nil => rfl
  | cons c t ih => simp [strLt, ih]

theorem strLt_asymm : ∀ a b : Str, strLt a b = true → strLt b a = false := by
  intro a
  induction a with
  | nil =>
    intro b h
    cases b with
    | nil => exact absurd h (by decide)
    | cons c t => rfl
  | cons c ta ih =>
    intro b h
    cases b with
    | nil => exact absurd h (by simp [strLt])
    | cons d tb =>
      simp only [strLt, Bool.or_eq_true, Bool.and_eq_true, decide_eq_true_eq] at h ⊢
      simp only [Bool.or_eq_false_iff, Bool.and_eq_false_iff, decide_eq_false_iff_not]
      rcases h with hlt | ⟨heq, htail⟩
      · constructor
        · omega
        · left
          rintro rfl
          omega
      · subst heq
        constructor
        · omega
        · right
          exact ih tb htail

theorem strLt_to_le {a b : Str} (h : strLt a b = true) : strLe a b = true := by
  unfold strLe
  rw [strLt_asymm a b h]
  rfl

theorem sorted_le_of_pairwise_lt {l : List Str}
    (h : List.Pairwise (fun a b => strLt a b = true) l) :
    List.Sorted (fun a b => strLe a b = true) l :=
  h.imp (fun hab => strLt_to_le hab)

theorem backup_fold (ts : List Str)
    (hp : List.Pairwise (fun a b => strLt a b = true) ts) :
    ts.foldl create_backup_fs [] = ts.drop (ts.length - 5) := by
  induction ts using List.reverseRecOn with
  | nil => rfl
  | append_singleton l t ih =>
    rw [List.pairwise_append] at hp
    obtain ⟨hl, -, hcross⟩ := hp
    have hlt : ∀ a ∈ l, strLt a t = true := fun a ha =>
      hcross a ha t (List.mem_cons_self t [])
    rw [List.foldl_append]
    have hA := ih hl
    rw [hA]
    set A := l.drop (l.length - 5) with hAdef
    have hAsub : A.Sublist l := List.drop_sublist _ l
    have hAlt : ∀ a ∈ A, strLt a t = true := fun a ha => hlt a (hAsub.mem ha)
    have htnot : t ∉ A := by
      intro hmem
      have := hAlt t hmem
      rw [strLt_irrefl] at this
      exact absurd this (by simp)
    have hAsorted : List.Sorted (fun a b => strLe a b = true) A :=
      sorted_le_of_pairwise_lt (hl.sublist hAsub)
    have hsorted : List.Sorted (fun a b => strLe a b = true) (A ++ [t]) := by
      rw [List.Sorted, List.pairwise_append]
      exact ⟨hAsorted, List.pairwise_singleton _ t,
        fun a ha b hb => by
          rw [List.mem_singleton] at hb
          subst hb
          exact strLt_to_le (hAlt a ha)⟩
    show create_backup_fs A t = (l ++ [t]).drop ((l ++ [t]).length - 5)
    unfold create_backup_fs sortAsc
    rw [if_neg htnot, List.Sorted.insertionSort_eq hsorted]
    unfold keepLast5
    have hsplit : A ++ [t] = (l ++ [t]).drop (l.length - 5) := by
      rw [hAdef, List.drop_append_of_le_length (by omega)]
    rw [hsplit, List.drop_drop]
    congr 1
    have h1 : ((l ++ [t]).drop (l.length - 5)).length = (l ++ [t]).length - (l.length - 5) :=
      List.length_drop _ _
    rw [h1]
    simp only [List.length_append, List.length_singleton]
    omega

/-! ### Search lemmas -/

theorem matchAt_noMeta {pat : Str} (h : ∀ c ∈ pat, isRegexMeta c = false) :
    ∀ s, matchAt pat s = litMatchAt pat s := by
  induction pat with
  | nil => intro s; cases s <;> rfl
  | cons p ps ih =>
    intro s
    cases s with
    | nil => rfl
    | cons c cs =>
      have hp : p ≠ '.' := by
        intro he
        subst he
        exact absurd (h '.' (List.mem_cons_self _ _)) (by decide)
      simp only [matchAt, litMatchAt, patCharMatch, decide_eq_false hp, Bool.false_or]
      rw [ih (fun q hq => h q (List.mem_cons_of_mem p hq)) cs]

theorem reSearch_noMeta {pat : Str} (h : ∀ c ∈ pat, isRegexMeta c = false) :
    ∀ s, reSearchCI pat s = substrCI pat s := by
  intro s
  induction s with
  | nil =>
    unfold reSearchCI substrCI
    exact matchAt_noMeta h []
  | cons c t ih =>
    unfold reSearchCI substrCI
    rw [matchAt_noMeta h (c :: t), ih]

/-! ### The claims -/

/-- C1.  For every start string of the identifier shape (one or more ASCII
letters followed by one or more ASCII digits) and every `count ≥ 1`,
`generate_sequence` succeeds and returns exactly `count` identifiers
`prefix ++ zfill (n + i) w` for `i` in `0..count-1`, where the prefix is
the upper-cased letter part, `n` the parsed numeric part and `w` the
original digit width; the identifiers all start with the prefix, their
numeric suffixes parse back to `n + i` (so the width grows without
truncation when `n + i` outgrows `w`), the suffixes are strictly
increasing in `i`, and the identifiers are pairwise distinct. -/
theorem generate_sequence_valid_spec (pre ds : Str) (count : Nat)
    (hpre : pre ≠ []) (hds : ds ≠ [])
    (ha : ∀ c ∈ pre, isAsciiAlpha c = true) (hd : ∀ c ∈ ds, isAsciiDigit c = true)
    (hc : 1 ≤ count) :
    ∃ ids, generate_sequence (pre ++ ds) count = .ok ids ∧
      ids.length = count ∧
      (∀ i, i < count → ids.getD i [] =
        pre.map Char.toUpper ++ zfillStr (natToString (parseNatDigits ds + i)) ds.length) ∧
      (∀ i, i < count → (ids.getD i []).take pre.length = pre.map Char.toUpper) ∧
      (∀ i, i < count →
        parseNatDigits ((ids.getD i []).drop pre.length) = parseNatDigits ds + i) ∧
      (∀ i j, i < count → j < count → i < j →
        parseNatDigits ((ids.getD i []).drop pre.length) <
          parseNatDigits ((ids.getD j []).drop pre.length)) ∧
      ids.Nodup := by
  have hgen := generate_sequence_of pre ds count hpre hds ha hd
  refine ⟨_, hgen, ?_, ?_, ?_, ?_, ?_, gen_nodup hgen⟩
  · simp
  · intro i hi
    rw [List.getD_eq_getElem _ _ (by simp [hi])]
    simp [hi]
  · intro i hi
    rw [List.getD_eq_getElem _ _ (by simp [hi])]
    simp only [List.getElem_map, List.getElem_range]
    rw [show pre.length = (pre.map Char.toUpper).length by rw [List.length_map]]
    exact List.take_left _ _
  · intro i hi
    rw [List.getD_eq_getElem _ _ (by simp [hi])]
    simp only [List.getElem_map, List.getElem_range]
    rw [show pre.length = (pre.map Char.toUpper).length by rw [List.length_map]]
    rw [List.drop_left]
    exact parseNat_zfill _ _
  · intro i j hi hj hij
    rw [List.getD_eq_getElem _ _ (by simp [hi]), List.getD_eq_getElem _ _ (by simp [hj])]
    simp only [List.getElem_map, List.getElem_range]
    rw [show pre.length = (pre.map Char.toUpper).length by rw [List.length_map]]
    rw [List.drop_left, List.drop_left, parseNat_zfill, parseNat_zfill]
    omega

/-- Witness for C1 at the spec example: start `P998`, count 3, which
exercises the width growth `998, 999, 1000`. -/
theorem generate_sequence_valid_spec_witness :
    ∃ ids, generate_sequence ("P".data ++ "998".data) 3 = .ok ids ∧
      ids.length = 3 ∧
      (∀ i, i < 3 → ids.getD i [] =
        "P".data.map Char.toUpper ++
          zfillStr (natToString (parseNatDigits "998".data + i)) "998".data.length) ∧
      (∀ i, i < 3 → (ids.getD i []).take "P".data.length = "P".data.map Char.toUpper) ∧
      (∀ i, i < 3 →
        parseNatDigits ((ids.getD i []).drop "P".data.length) = parseNatDigits "998".data + i) ∧
      (∀ i j, i < 3 → j < 3 → i < j →
        parseNatDigits ((ids.getD i []).drop "P".data.length) <
          parseNatDigits ((ids.getD j []).drop "P".data.length)) ∧
      ids.Nodup :=
  generate_sequence_valid_spec ("P".data) ("998".data) 3 (by decide) (by decide)
    (by decide) (by decide) (by decide)

/-- C2, amended.  The persistence round-trip holds for the stores whose
`Date` fields are canonical full `YYYY-MM-DD HH:MM:SS` timestamps (and
whose identifiers are cleaned letters-digits values): `load` after `save`
reproduces the store exactly, and `save` after `load` of a file that `save`
produced from such a store is the identity on the file content.  The claim
as stated also covered rows with a date-only `Date` field; those do not
survive (see the counterexample). -/
theorem load_save_roundtrip_full_format :
    (∀ store, WFStore store → load_data (save_data store) = store) ∧
    (∀ f, (∃ store, WFStore store ∧ f = save_data store) → save_data (load_data f) = f) := by
  refine ⟨load_save, ?_⟩
  rintro f ⟨store, hw, rfl⟩
  rw [load_save store hw]

/-- Witness for C2 on a one-record well-formed store. -/
theorem load_save_roundtrip_full_format_witness :
    WFStore [exRow] ∧ load_data (save_data [exRow]) = [exRow] ∧
      save_data (load_data (save_data [exRow])) = save_data [exRow] :=
  ⟨by decide, load_save_roundtrip_full_format.1 [exRow] (by decide),
    load_save_roundtrip_full_format.2 (save_data [exRow]) ⟨[exRow], by decide, rfl⟩⟩

/-- Counterexample to C2 as stated: a valid row whose `Date` field is the
date-only form `2024-01-02` (the claim calls the time part optional) does
not survive the load-save round trip byte for byte: parsing with the fixed
format `%Y-%m-%d %H:%M:%S` coerces it to `NaT` and the row is dropped. -/
theorem load_save_dateonly_not_roundtrip :
    parseDateTime ("2024-01-02".data) = none ∧
    load_data f0 = [] ∧ save_data (load_data f0) ≠ f0 :=
  ⟨rfl, rfl, by decide⟩

/-- C3, amended.  `update` and `discard` never create or delete records
(the identifier column is untouched), so a candidate identifier absent
from the store is still absent afterwards; when no candidate matches, the
store is returned unchanged with the generic warning
`No matching pallets found`.  The claim as stated also said the missing
identifiers are reported under `notFound`; the handlers only count the
matches and never report individual missing identifiers (see the
counterexample). -/
theorem update_discard_missing_ids (store : List Row) (ids : List Str) (loc stat now : Str) :
    ((updatePallets store ids loc stat now).1.map Row.palletNo = store.map Row.palletNo) ∧
    ((discardPallets store ids now).1.map Row.palletNo = store.map Row.palletNo) ∧
    (∀ pid ∈ ids, pid ∉ store.map Row.palletNo →
      pid ∉ (updatePallets store ids loc stat now).1.map Row.palletNo) ∧
    (∀ pid ∈ ids, pid ∉ store.map Row.palletNo →
      pid ∉ (discardPallets store ids now).1.map Row.palletNo) ∧
    (∀ start count ids2, generate_sequence start count = .ok ids2 →
      (∀ pid ∈ ids2, pid ∉ store.map Row.palletNo) →
      updateHandler store start count loc stat now = .ok (store, 0, noMatchMsg) ∧
      discardHandler store start count now = .ok (store, 0, noMatchMsg)) := by
  refine ⟨updatePallets_map_pn store ids loc stat now, discardPallets_map_pn store ids now,
    ?_, ?_, ?_⟩
  · intro pid _ hnot
    rw [updatePallets_map_pn]
    exact hnot
  · intro pid _ hnot
    rw [discardPallets_map_pn]
    exact hnot
  · intro start count ids2 hgen habs
    constructor
    · unfold updateHandler
      rw [hgen]
      simp only [updatePallets_absent store ids2 loc stat now habs]
      norm_num
    · unfold discardHandler
      rw [hgen]
      simp only [discardPallets_absent store ids2 now habs]
      norm_num

/-- Witness for C3: updating or discarding the absent `P002` on a store
holding only `P001` leaves the store unchanged and warns. -/
theorem update_discard_missing_ids_witness :
    (∀ pid ∈ ["P002".data], pid ∉ [exRow].map Row.palletNo) ∧
    updateHandler [exRow] ("P002".data) 1 ("DKP".data) ("Delivered".data)
        ("2024-01-02 09:00:00".data) = .ok ([exRow], 0, noMatchMsg) ∧
    discardHandler [exRow] ("P002".data) 1 ("2024-01-02 09:00:00".data)
        = .ok ([exRow], 0, noMatchMsg) :=
  ⟨by decide,
    ((update_discard_missing_ids [exRow] ["P002".data] ("DKP".data) ("Delivered".data)
        ("2024-01-02 09:00:00".data)).2.2.2.2 ("P002".data) 1 ["P002".data]
        (by rfl) (by decide)).1,
    ((update_discard_missing_ids [exRow] ["P002".data] ("DKP".data) ("Delivered".data)
        ("2024-01-02 09:00:00".data)).2.2.2.2 ("P002".data) 1 ["P002".data]
        (by rfl) (by decide)).2⟩

/-- Counterexample to C3 as stated: updating `P001..P002` on a store
holding only `P001` succeeds on `P001` and silently skips `P002` — the
whole observable result is the updated store, the count 1 and the message
`Updated 1 pallets`, and the missing identifier `P002` appears nowhere in
it: nothing is reported under a `notFound` set. -/
theorem update_missing_id_not_reported :
    updateHandler [exRow] ("P001".data) 2 ("DKP".data) ("Delivered".data)
        ("2024-01-02 09:00:00".data)
      = .ok ([⟨"P001".data, "DKP".data, "Delivered".data, "2024-01-02 09:00:00".data⟩], 1,
          "Updated 1 pallets".data) ∧
    generate_sequence ("P001".data) 2 = .ok ["P001".data, "P002".data] ∧
    strContainsCS ("P002".data) ("Updated 1 pallets".data) = false :=
  ⟨by rfl, by rfl, by rfl⟩


/-- C4.  Starting from an empty archive, after more than five snapshots at
strictly increasing timestamps exactly the five most recent archive
entries remain (the pruning after each write deletes the oldest first),
and the Backup Management listing returns them strictly ordered newest
first. -/
theorem backup_retention_five (ts : List Str)
    (hp : List.Pairwise (fun a b => strLt a b = true) ts) (hlen : 5 < ts.length) :
    ts.foldl create_backup_fs [] = ts.drop (ts.length - 5) ∧
    (ts.foldl create_backup_fs []).length = 5 ∧
    listSnapshots (ts.foldl create_backup_fs []) = (ts.drop (ts.length - 5)).reverse ∧
    List.Pairwise (fun a b => strLt b a = true)
      (listSnapshots (ts.foldl create_backup_fs [])) := by
  have hfold := backup_fold ts hp
  have hdropPair : List.Pairwise (fun a b => strLt a b = true) (ts.drop (ts.length - 5)) :=
    hp.sublist (List.drop_sublist _ _)
  have hsorted : List.Sorted (fun a b => strLe a b = true) (ts.drop (ts.length - 5)) :=
    sorted_le_of_pairwise_lt hdropPair
  have hlist : listSnapshots (ts.foldl create_backup_fs []) =
      (ts.drop (ts.length - 5)).reverse := by
    rw [hfold]
    unfold listSnapshots sortAsc
    rw [List.Sorted.insertionSort_eq hsorted]
  refine ⟨hfold, ?_, hlist, ?_⟩
  · rw [hfold, List.length_drop]
    omega
  · rw [hlist, List.pairwise_reverse]
    exact hdropPair

/-- Witness for C4 with six concrete increasing timestamps: the first one
is pruned away and the listing is newest first. -/
theorem backup_retention_five_witness :
    List.Pairwise (fun a b => strLt a b = true) ts6 ∧ 5 < ts6.length ∧
    ts6.foldl create_backup_fs [] = ts6.drop 1 ∧
    listSnapshots (ts6.foldl create_backup_fs []) = (ts6.drop 1).reverse :=
  ⟨by decide, by decide, (backup_retention_five ts6 (by decide) (by decide)).1,
    (backup_retention_five ts6 (by decide) (by decide)).2.2.1⟩

/-- C5, amended.  For every start string that `validate_pallet_number`
rejects — that is, every string that is neither letters-then-digits nor
such a string followed by one trailing newline (the Python `$` anchor also
matches just before a trailing newline) — `generate_sequence` fails with
the `InvalidFormat` error, and the failure aborts each of the Add, Update
and Discard batches before any record is touched, leaving the store
unchanged.  The claim as stated covered every string not of the
letters-then-digits shape; a trailing-newline variant is accepted instead
(see the counterexample). -/
theorem invalid_start_aborts_batch (s : Str) (count : Nat) (store : List Row)
    (loc stat now : Str) (h : validate_pallet_number s = false) :
    generate_sequence s count = .error SeqError.invalidFormat ∧
    addClick store s count loc stat now = store ∧
    updateClick store s count loc stat now = store ∧
    discardClick store s count now = store := by
  have hg : generate_sequence s count = .error SeqError.invalidFormat := by
    unfold generate_sequence
    rw [if_neg (by simp [h])]
  refine ⟨hg, ?_, ?_, ?_⟩
  · unfold addClick addHandler
    rw [hg]
  · unfold updateClick updateHandler
    rw [hg]
  · unfold discardClick discardHandler
    rw [hg]

/-- Witness for C5 at the malformed start `P-01`. -/
theorem invalid_start_aborts_batch_witness :
    validate_pallet_number ("P-01".data) = false ∧
    generate_sequence ("P-01".data) 2 = .error SeqError.invalidFormat ∧
    addClick [exRow] ("P-01".data) 2 ("SGT".data) ("Delivered".data)
      ("2024-01-02 09:00:00".data) = [exRow] ∧
    updateClick [exRow] ("P-01".data) 2 ("SGT".data) ("Delivered".data)
      ("2024-01-02 09:00:00".data) = [exRow] :=
  ⟨by decide,
    (invalid_start_aborts_batch ("P-01".data) 2 [exRow] ("SGT".data) ("Delivered".data)
      ("2024-01-02 09:00:00".data) (by decide)).1,
    (invalid_start_aborts_batch ("P-01".data) 2 [exRow] ("SGT".data) ("Delivered".data)
      ("2024-01-02 09:00:00".data) (by decide)).2.1,
    (invalid_start_aborts_batch ("P-01".data) 2 [exRow] ("SGT".data) ("Delivered".data)
      ("2024-01-02 09:00:00".data) (by decide)).2.2.1⟩

/-- Counterexample to C5 as stated: `P001\n` is not of the
letters-then-digits shape (`\n` is neither a letter nor a digit), yet
`generate_sequence` accepts it, because the Python `$` anchor of
`re.match(r'^[A-Za-z]+\d+$', ...)` also matches just before a trailing
newline and `int` strips the newline; the Add batch then inserts a record
with the malformed identifier `P\n0001` instead of aborting. -/
theorem trailing_newline_accepted :
    alphaThenDigits ("P001\n".data) = false ∧
    isAsciiAlpha '\n' = false ∧ isAsciiDigit '\n' = false ∧
    generate_sequence ("P001\n".data) 1 = .ok [['P', '\n', '0', '0', '0', '1']] ∧
    addClick [] ("P001\n".data) 1 ("SGT".data) ("Received At".data)
        ("2024-01-02 03:04:05".data)
      = [⟨['P', '\n', '0', '0', '0', '1'], "SGT".data, "Received At".data,
          "2024-01-02 03:04:05".data⟩] := by
  refine ⟨by decide, by decide, by decide, by rfl, by rfl⟩

/-- Helper for C7: when every generated identifier is already present,
the Add handler returns the store unchanged, adds nothing and skips the
whole batch. -/
theorem addHandler_all_present (store : List Row) (start : Str) (count : Nat)
    (loc stat now : Str) (ids : List Str)
    (hg : generate_sequence start count = .ok ids)
    (hall : ∀ p ∈ ids, p ∈ store.map Row.palletNo) :
    addHandler store start count loc stat now = .ok (store, [], ids) := by
  unfold addHandler
  rw [hg]
  have h1 : (ids.filter fun p => decide (p ∉ store.map Row.palletNo)) = [] := by
    rw [List.filter_eq_nil_iff]
    intro a ha
    simp [hall a ha]
  have h2 : (ids.filter fun p => decide (p ∈ store.map Row.palletNo)) = ids := by
    rw [List.filter_eq_self]
    intro a ha
    exact decide_eq_true (hall a ha)
  simp only [h1, h2, List.map_nil, List.append_nil]

/-- C6.  The uniqueness of `Pallet_No` across the store is preserved by
every operation: the identifiers generated for one batch are pairwise
distinct, Add skips every candidate already present (so the appended
identifiers are fresh and distinct), and Update and Discard rewrite rows
in place without ever inserting one. -/
theorem unique_ids_preserved (store : List Row) (h : (store.map Row.palletNo).Nodup) :
    (∀ start count ids, generate_sequence start count = .ok ids → ids.Nodup) ∧
    (∀ start count loc stat now out,
      addHandler store start count loc stat now = .ok out →
      (out.1.map Row.palletNo).Nodup) ∧
    (∀ ids loc stat now, ((updatePallets store ids loc stat now).1.map Row.palletNo).Nodup) ∧
    (∀ ids now, ((discardPallets store ids now).1.map Row.palletNo).Nodup) := by
  refine ⟨fun _ _ _ hg => gen_nodup hg, ?_, ?_, ?_⟩
  · intro start count loc stat now out hadd
    unfold addHandler at hadd
    cases hg : generate_sequence start count with
    | error e =>
      rw [hg] at hadd
      exact Except.noConfusion hadd
    | ok newPallets =>
      rw [hg] at hadd
      injection hadd with hadd
      subst hadd
      dsimp only
      rw [List.map_append, List.map_map]
      have hmapgen : ∀ l : List Str,
          List.map (Row.palletNo ∘ fun p => Row.mk p loc stat now) l = l := by
        intro l
        induction l with
        | nil => rfl
        | cons a t ih =>
          simp only [List.map_cons, ih]
          rfl
      rw [hmapgen, List.nodup_append]
      refine ⟨h, (gen_nodup hg).filter _, ?_⟩
      intro a ha hb
      exact absurd ha (of_decide_eq_true (List.mem_filter.mp hb).2)
  · intro ids loc stat now
    rw [updatePallets_map_pn]
    exact h
  · intro ids now
    rw [discardPallets_map_pn]
    exact h

/-- Witness for C6: adding `P001..P002` to a store already holding `P001`
appends only the fresh `P002`, keeping the identifiers pairwise
distinct. -/
theorem unique_ids_preserved_witness :
    ([exRow].map Row.palletNo).Nodup ∧
    (([exRow, ⟨"P002".data, "SGT".data, "Received At".data,
        "2024-01-02 09:00:00".data⟩].map Row.palletNo).Nodup) :=
  ⟨by decide,
    (unique_ids_preserved [exRow] (by decide)).2.1 ("P001".data) 2 ("SGT".data)
      ("Received At".data) ("2024-01-02 09:00:00".data)
      ([exRow, ⟨"P002".data, "SGT".data, "Received At".data, "2024-01-02 09:00:00".data⟩],
        ["P002".data], ["P001".data]) (by rfl)⟩

/-- C7.  Add is idempotent on membership: after one successful Add, running
the same Add again (same start and count) adds nothing — every generated
identifier lands in `skipped` and the store is returned unchanged, so the
record count does not change. -/
theorem add_idempotent_membership (store : List Row) (start : Str) (count : Nat)
    (loc stat t1 t2 : Str) (out : List Row × List Str × List Str)
    (h : addHandler store start count loc stat t1 = .ok out) :
    ∃ ids, generate_sequence start count = .ok ids ∧
      addHandler out.1 start count loc stat t2 = .ok (out.1, [], ids) := by
  unfold addHandler at h
  cases hg : generate_sequence start count with
  | error e =>
    rw [hg] at h
    exact Except.noConfusion h
  | ok ids =>
    rw [hg] at h
    injection h with h
    subst h
    refine ⟨ids, rfl, ?_⟩
    refine addHandler_all_present _ start count loc stat t2 ids hg ?_
    intro p hp
    dsimp only
    rw [List.map_append, List.map_map, List.mem_append]
    by_cases hs : p ∈ store.map Row.palletNo
    · exact Or.inl hs
    · right
      have hmemf : p ∈ ids.filter fun q => decide (q ∉ store.map Row.palletNo) :=
        List.mem_filter.mpr ⟨hp, decide_eq_true hs⟩
      exact List.mem_map.mpr ⟨p, hmemf, rfl⟩

/-- Witness for C7: repeating the Add of `P001..P002` on the store that the
first Add produced yields zero additions and skips both identifiers. -/
theorem add_idempotent_membership_witness :
    ∃ ids, generate_sequence ("P001".data) 2 = .ok ids ∧
      addHandler [exRow,
          ⟨"P002".data, "SGT".data, "Received At".data, "2024-01-02 09:00:00".data⟩]
        ("P001".data) 2 ("SGT".data) ("Received At".data) ("2024-01-03 00:00:00".data)
        = .ok ([exRow,
            ⟨"P002".data, "SGT".data, "Received At".data, "2024-01-02 09:00:00".data⟩],
          [], ids) :=
  add_idempotent_membership [exRow] ("P001".data) 2 ("SGT".data) ("Received At".data)
    ("2024-01-02 09:00:00".data) ("2024-01-03 00:00:00".data)
    ([exRow, ⟨"P002".data, "SGT".data, "Received At".data, "2024-01-02 09:00:00".data⟩],
      ["P002".data], ["P001".data]) (by rfl)

/-- C8.  Discard is a frame effect: the store keeps its length, every row
whose identifier is among the candidates gets status `Discarded` and the
fresh timestamp with its location untouched, and every other row is left
exactly as it was. -/
theorem discard_frame_effect (store : List Row) (ids : List Str) (now : Str) :
    ((discardPallets store ids now).1.length = store.length) ∧
    (∀ i, i < store.length →
      (discardPallets store ids now).1.getD i dRow =
        (if (store.getD i dRow).palletNo ∈ ids
         then { store.getD i dRow with status := "Discarded".data, date := now }
         else store.getD i dRow)) := by
  constructor
  · rw [discardPallets_fst]
    exact List.length_map store _
  · intro i hi
    rw [discardPallets_fst]
    rw [List.getD_eq_getElem _ _ (by simp [hi]), List.getD_eq_getElem _ _ hi]
    rw [List.getElem_map]
    rfl

/-- Witness for C8: discarding `P001` at location DKP keeps the location
DKP and only rewrites status and timestamp. -/
theorem discard_frame_effect_witness :
    (0 < 1) ∧
    (discardPallets [⟨"P001".data, "DKP".data, "Delivered".data,
        "2024-01-02 03:04:05".data⟩] ["P001".data] ("2024-01-02 09:00:00".data)).1.getD 0 dRow
      = ⟨"P001".data, "DKP".data, "Discarded".data, "2024-01-02 09:00:00".data⟩ :=
  ⟨by decide,
    by
      have h := (discard_frame_effect
        [⟨"P001".data, "DKP".data, "Delivered".data, "2024-01-02 03:04:05".data⟩]
        ["P001".data] ("2024-01-02 09:00:00".data)).2 0 (by decide)
      rw [h]
      decide⟩

/-- C9, amended.  `restore_backup` checks only that the required columns
are present in the backup data: on a missing column it fails and the live
store is not replaced, but — unlike the load path of the Persistence
Gateway — it performs no row-level validation: rows whose dates do not
parse are kept, and identifiers are returned verbatim without the
strip-and-uppercase normalization (see the counterexample). -/
theorem restore_validation_shallow (b : Backup) (store : List Row) :
    (¬ (∀ c ∈ requiredCols, c ∈ b.header) →
      restore_backup b = none ∧ restoreApply store b = store) ∧
    ((∀ c ∈ requiredCols, c ∈ b.header) →
      ∃ df, restore_backup b = some df ∧ restoreApply store b = df ∧
        df.length = b.rows.length ∧
        (∀ i, i < b.rows.length →
          (df.getD i dRow).palletNo =
            (b.rows.getD i []).getD (b.header.indexOf ("Pallet_No".data)) [] ∧
          (df.getD i dRow).date =
            (b.rows.getD i []).getD (b.header.indexOf ("Date".data)) [])) := by
  have hcond : (requiredCols.all fun c => decide (c ∈ b.header)) = true ↔
      (∀ c ∈ requiredCols, c ∈ b.header) := by
    simp [List.all_eq_true]
  constructor
  · intro hn
    have hres : restore_backup b = none := by
      unfold restore_backup
      rw [if_neg (fun hc => hn (hcond.mp hc))]
    refine ⟨hres, ?_⟩
    unfold restoreApply
    rw [hres]
  · intro hp
    have hres : restore_backup b =
        some (b.rows.map (fun row =>
          ⟨row.getD (b.header.indexOf ("Pallet_No".data)) [],
           row.getD (b.header.indexOf ("Location".data)) [],
           row.getD (b.header.indexOf ("Status".data)) [],
           row.getD (b.header.indexOf ("Date".data)) []⟩)) := by
      unfold restore_backup
      rw [if_pos (hcond.mpr hp)]
    refine ⟨_, hres, ?_, List.length_map _ _, ?_⟩
    · unfold restoreApply
      rw [hres]
    · intro i hi
      constructor
      · rw [List.getD_eq_getElem _ _ (by simp [hi]), List.getElem_map,
          List.getD_eq_getElem _ _ hi]
      · rw [List.getD_eq_getElem _ _ (by simp [hi]), List.getElem_map,
          List.getD_eq_getElem _ _ hi]

/-- Witness for C9: a backup missing the `Date` column fails to restore
and the live store stays what it was. -/
theorem restore_validation_shallow_witness :
    (¬ (∀ c ∈ requiredCols, c ∈ bBad.header)) ∧
    restore_backup bBad = none ∧ restoreApply [exRow] bBad = [exRow] :=
  ⟨by decide, ((restore_validation_shallow bBad [exRow]).1 (by decide)).1,
    ((restore_validation_shallow bBad [exRow]).1 (by decide)).2⟩

/-- Counterexample to C9 as stated: a backup row with the lower-case
identifier `p001` and the unparseable date `not-a-date` is returned
verbatim by `restore_backup`, while the load path run on the same content
drops the row (and would have upper-cased the identifier): the schema
validation of restore is not identical to the load path. -/
theorem restore_skips_load_cleaning :
    restore_backup bEx =
      some [⟨"p001".data, "SGT".data, "Received At".data, "not-a-date".data⟩] ∧
    load_data ⟨bEx.header, bEx.rows⟩ = [] ∧
    parseDateTime ("not-a-date".data) = none ∧
    normPalletNo ("p001".data) = "P001".data :=
  ⟨by rfl, by rfl, by rfl, by rfl⟩

/-- C10, amended.  For every search term free of regular-expression
metacharacters, Search returns exactly the records whose `Pallet_No` or
`Location` contains the term as a substring compared case-insensitively,
and the result is a sublist of the store — the search never mutates it.
The claim as stated promised substring semantics for every term; pandas
`str.contains` treats the term as a regular expression by default, so a
metacharacter term matches more than its literal occurrences (see the
counterexample). -/
theorem search_substring_read_only (term : Str) (store : List Row)
    (h : ∀ c ∈ term, isRegexMeta c = false) :
    searchPallets store term =
      store.filter (fun r => substrCI term r.palletNo || substrCI term r.location) ∧
    List.Sublist (searchPallets store term) store := by
  constructor
  · unfold searchPallets
    refine List.filter_congr ?_
    intro r _
    rw [reSearch_noMeta h, reSearch_noMeta h]
  · exact List.filter_sublist store

/-- Witness for C10 with the literal term `sg`, matching `SGT`
case-insensitively. -/
theorem search_substring_read_only_witness :
    (∀ c ∈ ("sg".data), isRegexMeta c = false) ∧
    searchPallets [exRow] ("sg".data) =
      [exRow].filter
        (fun r => substrCI ("sg".data) r.palletNo || substrCI ("sg".data) r.location) ∧
    List.Sublist (searchPallets [exRow] ("sg".data)) [exRow] :=
  ⟨by decide, (search_substring_read_only ("sg".data) [exRow] (by decide)).1,
    (search_substring_read_only ("sg".data) [exRow] (by decide)).2⟩

/-- Counterexample to C10 as stated: the term `.` is a regex wildcard, so
the search returns the record `P001` at `SGT` although `.` occurs in
neither field as a literal substring. -/
theorem search_term_is_regex :
    isRegexMeta '.' = true ∧
    searchPallets [exRow] ['.'] = [exRow] ∧
    substrCI ['.'] ("P001".data) = false ∧ substrCI ['.'] ("SGT".data) = false :=
  ⟨by rfl, by rfl, by rfl, by rfl⟩
